import Mathlib

/-!
A shallow embedding of the per-connection core of the s2n TLS library.

The repository sources provide the declarative connection state
(`tls/s2n_connection.h`: `struct s2n_connection` and the prototype of
`s2n_connection_kill`).  The record layer, handshake driver, alert and
shutdown logic that operate on that state are part of the repository but are
not among the sources, so those operations are modelled from the
specification, as marked in the doc comment of each definition.
-/

namespace S2N

/-- Record header length on the wire: 1 byte record type, 2 bytes protocol
version, 2 bytes ciphertext length, matching `S2N_TLS_RECORD_HEADER_LENGTH`. -/
def S2N_TLS_RECORD_HEADER_LENGTH : Nat := 5

/-- Alert wire format length: one level byte and one description byte,
matching `S2N_ALERT_LENGTH`. -/
def S2N_ALERT_LENGTH : Nat := 2

/-- Alert description value for close_notify. -/
def ALERT_CLOSE_NOTIFY : Nat := 0

/-- Alert level value for warning alerts. -/
def ALERT_LEVEL_WARNING : Nat := 1

/-- Alert level value for fatal alerts. -/
def ALERT_LEVEL_FATAL : Nat := 2

/-- Record content type byte for application data. -/
def TLS_APPLICATION_DATA : Nat := 23

/-- First value that no longer fits in the 64-bit per-direction record
sequence counter; reaching it is the fatal overflow condition. -/
def seqLimit : Nat := 2 ^ 64

/-- Connection mode, from `s2n_mode`: a connection is a client or a server
connection and this is immutable after creation. -/
inductive s2n_mode
  | S2N_CLIENT
  | S2N_SERVER
deriving DecidableEq

/-- Traffic direction of a record: client-to-server or server-to-client. -/
inductive Dir
  | client_to_server
  | server_to_client
deriving DecidableEq

/-- Selector for the `client`/`server` crypto-parameter pointers of
`struct s2n_connection`.  The pointers may only reference the connection's
two owned sets `initial` and `secure`, so they are modelled as a selector
indicating which owned set is referenced. -/
inductive PSel
  | initial
  | secure
deriving DecidableEq

/-- Status tag of the inbound buffer, from `enum { ENCRYPTED, PLAINTEXT }
in_status` in `struct s2n_connection`. -/
inductive InStatus
  | ENCRYPTED
  | PLAINTEXT
deriving DecidableEq

/-- Modelled from the spec: `struct s2n_crypto_parameters` (declared in
`tls/s2n_crypto.h`, which is not among the sources) holds the cipher state
and a 64-bit sequence number per traffic direction for one security epoch.
The opaque cipher/MAC state is reduced to a model key and the length of the
authentication tag the cipher appends to each record. -/
structure s2n_crypto_parameters where
  key : Nat
  tag_len : Nat
  client_sequence_number : Nat
  server_sequence_number : Nat
deriving DecidableEq

/-- The connection state object, from `struct s2n_connection` in
`tls/s2n_connection.h`, restricted to the fields the verified claims are
about.  The `client`/`server` crypto-parameter pointers become `PSel`
selectors into the owned sets `initial` and `secure`; the `sig_atomic_t`
lifecycle flags `closing`/`closed` become booleans; buffers hold their byte
contents directly.  Configuration, I/O callbacks, timers, blinding delay,
session id and extension blobs are omitted because no verified claim
mentions them. -/
structure s2n_connection where
  mode : s2n_mode
  actual_protocol_version : Nat
  actual_protocol_version_established : Bool
  initial : s2n_crypto_parameters
  secure : s2n_crypto_parameters
  client : PSel
  server : PSel
  in_status : InStatus
  alert_in : List Nat
  reader_alert_out : List Nat
  writer_alert_out : List Nat
  close_notify_queued : Bool
  handshake_complete : Bool
  max_outgoing_fragment_length : Nat
  wire_bytes_in : Nat
  wire_bytes_out : Nat
  closing : Bool
  closed : Bool
deriving DecidableEq

/-- Modelled from the spec: the cipher primitives are external black boxes;
this reversible keyed byte transform stands in for the cipher selected by a
crypto parameter set. -/
def encByte (key seq b : Nat) : Nat := (b + key + seq) % 256

/-- Inverse of `encByte` on byte values. -/
def decByte (key seq b : Nat) : Nat := (b + (256 - (key + seq) % 256)) % 256

/-- Modelled from the spec: the authentication tag of a record.  The local
sequence number is an authentication input, so the tag binds the key, the
sequence number and the ciphertext. -/
def authTag (key seq : Nat) (ct : List Nat) : Nat :=
  Nat.pair seq (Nat.pair key ct.sum)

/-- A TLS record: the 5-byte header fields (type, version, with the length
implied by the payload), the ciphertext payload and the authentication tag
produced by the active cipher. -/
structure Record where
  content_type : Nat
  version : Nat
  payload : List Nat
  tag : Nat
deriving DecidableEq

/-- Modelled from the spec: encrypt one fragment plus authentication tag
under the active crypto parameters using the current sequence number. -/
def encryptFragment (key seq ctype ver : Nat) (frag : List Nat) : Record :=
  let ct := frag.map (encByte key seq)
  { content_type := ctype, version := ver, payload := ct, tag := authTag key seq ct }

/-- Modelled from the spec: decrypt a record using the locally tracked
expected sequence number; a sequence-number mismatch manifests as an
authentication failure (`none`).  The sequence number is never read from the
wire: it is an input here, not a field of `Record`. -/
def decryptRecord (key seq : Nat) (r : Record) : Option (List Nat) :=
  if r.tag = authTag key seq r.payload then some (r.payload.map (decByte key seq))
  else none

/-- Number of wire bytes a record occupies: its 5-byte header, its
ciphertext payload and its authentication tag. -/
def recordWireLen (tag_len : Nat) (r : Record) : Nat :=
  S2N_TLS_RECORD_HEADER_LENGTH + r.payload.length + tag_len

/-- Sequence number of a crypto parameter set for one direction. -/
def getSeq (p : s2n_crypto_parameters) : Dir → Nat
  | .client_to_server => p.client_sequence_number
  | .server_to_client => p.server_sequence_number

/-- Increment the sequence number of one direction. -/
def incSeq (p : s2n_crypto_parameters) : Dir → s2n_crypto_parameters
  | .client_to_server => { p with client_sequence_number := p.client_sequence_number + 1 }
  | .server_to_client => { p with server_sequence_number := p.server_sequence_number + 1 }

/-- The owned crypto parameter set a selector references. -/
def activeSet (c : s2n_connection) : PSel → s2n_crypto_parameters
  | .initial => c.initial
  | .secure => c.secure

/-- Which selector pointer governs a traffic direction: `client` for the
client-to-server pipeline, `server` for the server-to-client pipeline. -/
def selFor (c : s2n_connection) : Dir → PSel
  | .client_to_server => c.client
  | .server_to_client => c.server

/-- Outbound traffic direction of a connection in the given mode. -/
def outDirOfMode : s2n_mode → Dir
  | .S2N_CLIENT => .client_to_server
  | .S2N_SERVER => .server_to_client

/-- Inbound traffic direction of a connection in the given mode. -/
def inDirOfMode : s2n_mode → Dir
  | .S2N_CLIENT => .server_to_client
  | .S2N_SERVER => .client_to_server

/-- Outbound traffic direction of a connection. -/
def outDir (c : s2n_connection) : Dir := outDirOfMode c.mode

/-- Inbound traffic direction of a connection. -/
def inDir (c : s2n_connection) : Dir := inDirOfMode c.mode

/-- Active crypto parameter set for the outbound direction. -/
def outParams (c : s2n_connection) : s2n_crypto_parameters :=
  activeSet c (selFor c (outDir c))

/-- Active crypto parameter set for the inbound direction. -/
def inParams (c : s2n_connection) : s2n_crypto_parameters :=
  activeSet c (selFor c (inDir c))

/-- Current outbound sequence number. -/
def outSeq (c : s2n_connection) : Nat := getSeq (outParams c) (outDir c)

/-- Current inbound (expected) sequence number. -/
def inSeq (c : s2n_connection) : Nat := getSeq (inParams c) (inDir c)

/-- Model key of the active outbound crypto parameter set. -/
def outKey (c : s2n_connection) : Nat := (outParams c).key

/-- Model key of the active inbound crypto parameter set. -/
def inKey (c : s2n_connection) : Nat := (inParams c).key

/-- Authentication-tag length of the active outbound crypto parameter set. -/
def outTagLen (c : s2n_connection) : Nat := (outParams c).tag_len

/-- Authentication-tag length of the active inbound crypto parameter set. -/
def inTagLen (c : s2n_connection) : Nat := (inParams c).tag_len

/-- Update, in place, the owned crypto parameter set a selector references
(the model of writing through the `client`/`server` pointer). -/
def updateActive (c : s2n_connection) (s : PSel)
    (f : s2n_crypto_parameters → s2n_crypto_parameters) : s2n_connection :=
  match s with
  | .initial => { c with initial := f c.initial }
  | .secure => { c with secure := f c.secure }

/-- Modelled from the spec: connection creation binds the mode; both
selector pointers start aimed at `initial`; counters, flags and alert
buffers start cleared.  The secure set's negotiated cipher is summarised by
a model key and tag length. -/
def s2n_connection_new (m : s2n_mode) (max_frag skey stag : Nat) : s2n_connection where
  mode := m
  actual_protocol_version := 0
  actual_protocol_version_established := false
  initial := { key := 0, tag_len := 0, client_sequence_number := 0, server_sequence_number := 0 }
  secure := { key := skey, tag_len := stag, client_sequence_number := 0, server_sequence_number := 0 }
  client := .initial
  server := .initial
  in_status := .ENCRYPTED
  alert_in := []
  reader_alert_out := []
  writer_alert_out := []
  close_notify_queued := false
  handshake_complete := false
  max_outgoing_fragment_length := max_frag
  wire_bytes_in := 0
  wire_bytes_out := 0
  closing := false
  closed := false

/-- Modelled from the spec: `s2n_connection_kill` (declared in
`tls/s2n_connection.h`, implementation not among the sources) sets `closed`
true unconditionally, releases no I/O resources, and is idempotent. -/
def s2n_connection_kill (c : s2n_connection) : s2n_connection :=
  { c with closed := true }

/-- Modelled from the spec: when the handshake state machine signals
key-derivation completion and reaches its terminal state, both selector
pointers are repointed from `initial` to `secure` in one indivisible step.
This happens at most once because the state machine completes only once. -/
def promoteCryptoParams (c : s2n_connection) : s2n_connection :=
  if c.handshake_complete then c
  else { c with client := .secure, server := .secure, handshake_complete := true }

/-- Modelled from the spec: the actual protocol version is set exactly once,
at the point it is no longer negotiable, and is read-only thereafter. -/
def establishVersion (c : s2n_connection) (v : Nat) : s2n_connection :=
  if c.actual_protocol_version_established then c
  else { c with actual_protocol_version := v, actual_protocol_version_established := true }

/-- Wire bytes of a close_notify alert: warning level, close_notify code. -/
def closeNotifyAlert : List Nat := [ALERT_LEVEL_WARNING, ALERT_CLOSE_NOTIFY]

/-- Modelled from the spec: the local graceful-close path queues one
close_notify alert in the writer queue; `close_notify_queued` flags that the
send is already in flight to avoid double-queuing. -/
def queueWriterCloseNotify (c : s2n_connection) : s2n_connection :=
  if c.close_notify_queued then c
  else { c with writer_alert_out := closeNotifyAlert, close_notify_queued := true }

/-- Modelled from the spec: dispatching a fully reassembled inbound alert.
A close_notify from the peer sets `closing`; a fatal alert sets `closing`;
no outbound alert is produced by dispatching. -/
def s2n_process_alert (c : s2n_connection) (level desc : Nat) : s2n_connection :=
  if desc = ALERT_CLOSE_NOTIFY then { c with closing := true }
  else if level = ALERT_LEVEL_FATAL then { c with closing := true }
  else c

/-- Modelled from the spec: inbound alert bytes may arrive fragmented across
records; they accumulate in the 2-byte reassembly buffer until both the
level and the description byte are present, then the alert is dispatched. -/
def recvAlertBytes (c : s2n_connection) (bs : List Nat) : s2n_connection :=
  let buf := c.alert_in ++ bs
  if S2N_ALERT_LENGTH ≤ buf.length then
    { s2n_process_alert c (buf.getD 0 0) (buf.getD 1 0) with alert_in := [] }
  else { c with alert_in := buf }

/-- Modelled from the spec: the writer path of a graceful close queues the
close_notify alert (at most once), sends it, and marks the connection
closing and closed. -/
def s2n_shutdown_write (c : s2n_connection) : s2n_connection :=
  let c1 := queueWriterCloseNotify c
  { c1 with closing := true, closed := true }

/-- The record built when sending one fragment: encrypt the fragment under
the active outbound parameters at the current sequence number. -/
def mkOutRecord (c : s2n_connection) (f : List Nat) : Record :=
  encryptFragment (outKey c) (outSeq c) TLS_APPLICATION_DATA c.actual_protocol_version f

/-- Connection state after successfully sending one fragment: the outbound
sequence number of the active set is incremented and `wire_bytes_out` grows
by the header, ciphertext and tag bytes of the produced record. -/
def sendFragmentResult (c : s2n_connection) (f : List Nat) : s2n_connection :=
  let c1 := updateActive c (selFor c (outDir c)) (fun p => incSeq p (outDir c))
  { c1 with wire_bytes_out := c1.wire_bytes_out + recordWireLen (outTagLen c) (mkOutRecord c f) }

/-- Modelled from the spec: frame and encrypt one outgoing fragment.
Sequence-number overflow is a fatal condition: if incrementing the sequence
number would exceed the 64-bit counter the connection moves toward
`closing` and the operation fails. -/
def sendFragment (c : s2n_connection) (f : List Nat) :
    Except s2n_connection (s2n_connection × Record) :=
  if seqLimit ≤ outSeq c + 1 then .error { c with closing := true }
  else .ok (sendFragmentResult c f, mkOutRecord c f)

/-- Modelled from the spec: send every fragment in order, accumulating the
produced records and the count of plaintext bytes consumed. -/
def sendLoop (c : s2n_connection) :
    List (List Nat) → Except s2n_connection (s2n_connection × List Record × Nat)
  | [] => .ok (c, [], 0)
  | f :: fs =>
    match sendFragment c f with
    | .error ce => .error ce
    | .ok (c1, r) =>
      match sendLoop c1 fs with
      | .error ce => .error ce
      | .ok (c2, rs, n) => .ok (c2, r :: rs, f.length + n)

/-- Bounded chunking used by `fragmentData`; the first `Nat` argument is
recursion fuel that is at least the number of chunks. -/
def fragGo (m : Nat) : Nat → List Nat → List (List Nat)
  | 0, _ => []
  | _ + 1, [] => []
  | fuel + 1, b :: rest => ((b :: rest).take m) :: fragGo m fuel ((b :: rest).drop m)

/-- Modelled from the spec: the record layer splits an application byte
sequence into fragments no larger than `max_outgoing_fragment_length`. -/
def fragmentData (m : Nat) (data : List Nat) : List (List Nat) :=
  if m = 0 then [] else fragGo m data.length data

/-- Modelled from the spec: the record-layer send path.  A closed connection
accepts no further bytes.  Otherwise the input is split into fragments no
larger than `max_outgoing_fragment_length` and each fragment is framed,
encrypted and accounted in order. -/
def s2n_send (c : s2n_connection) (data : List Nat) :
    Except s2n_connection (s2n_connection × List Record × Nat) :=
  if c.closed then .ok (c, [], 0)
  else sendLoop c (fragmentData c.max_outgoing_fragment_length data)

/-- Connection state after successfully receiving one record: the inbound
sequence number of the active set is incremented, `wire_bytes_in` grows by
the record's wire bytes, and the inbound buffer is marked plaintext. -/
def recvRecordResult (c : s2n_connection) (r : Record) : s2n_connection :=
  let c1 := updateActive c (selFor c (inDir c)) (fun p => incSeq p (inDir c))
  { c1 with wire_bytes_in := c1.wire_bytes_in + recordWireLen (inTagLen c) r,
            in_status := .PLAINTEXT }

/-- Modelled from the spec: the record-layer receive path for one record.
Decrypt in place using the active inbound crypto parameters and the locally
tracked expected sequence number; authentication failure and sequence
overflow are fatal; on success the sequence number and `wire_bytes_in` are
advanced and the plaintext is produced. -/
def s2n_recv_record (c : s2n_connection) (r : Record) :
    Except s2n_connection (s2n_connection × List Nat) :=
  if c.closed then .error c
  else if seqLimit ≤ inSeq c + 1 then .error { c with closing := true }
  else
    match decryptRecord (inKey c) (inSeq c) r with
    | none => .error { c with closing := true }
    | some pt => .ok (recvRecordResult c r, pt)

/-- Modelled from the spec: receive a list of records in order, concatenating
the recovered plaintext. -/
def recvLoop (c : s2n_connection) :
    List Record → Except s2n_connection (s2n_connection × List Nat)
  | [] => .ok (c, [])
  | r :: rs =>
    match s2n_recv_record c r with
    | .error ce => .error ce
    | .ok (c1, pt) =>
      match recvLoop c1 rs with
      | .error ce => .error ce
      | .ok (c2, pts) => .ok (c2, pt ++ pts)

/-- The records produced by sending a list of fragments starting from a
given sequence number. -/
def encryptStream (key sn ver : Nat) : List (List Nat) → List Record
  | [] => []
  | f :: fs => encryptFragment key sn TLS_APPLICATION_DATA ver f :: encryptStream key (sn + 1) ver fs

/-- The operations that may mutate a connection during its lifetime: the
handshake driver promoting crypto parameters and establishing the version,
the record-layer send and receive paths (successful or fatal), inbound alert
handling, graceful-close steps, and `kill`. -/
inductive Step : s2n_connection → s2n_connection → Prop
  | promote (c : s2n_connection) : Step c (promoteCryptoParams c)
  | establish (c : s2n_connection) (v : Nat) : Step c (establishVersion c v)
  | kill (c : s2n_connection) : Step c (s2n_connection_kill c)
  | send_ok (c : s2n_connection) (f : List Nat) (c' : s2n_connection) (r : Record) :
      sendFragment c f = .ok (c', r) → Step c c'
  | send_err (c : s2n_connection) (f : List Nat) (c' : s2n_connection) :
      sendFragment c f = .error c' → Step c c'
  | recv_ok (c : s2n_connection) (r : Record) (c' : s2n_connection) (pt : List Nat) :
      s2n_recv_record c r = .ok (c', pt) → Step c c'
  | recv_err (c : s2n_connection) (r : Record) (c' : s2n_connection) :
      s2n_recv_record c r = .error c' → Step c c'
  | alert (c : s2n_connection) (bs : List Nat) : Step c (recvAlertBytes c bs)
  | close_intent (c : s2n_connection) : Step c { c with closing := true }
  | queue_close (c : s2n_connection) : Step c (queueWriterCloseNotify c)
  | shutdown_write (c : s2n_connection) : Step c (s2n_shutdown_write c)

/-- A connection state is reachable when some sequence of operations leads
to it from a freshly created connection. -/
def Reachable (c : s2n_connection) : Prop :=
  ∃ (m : s2n_mode) (mf skey stag : Nat),
    Relation.ReflTransGen Step (s2n_connection_new m mf skey stag) c

/-- A list of connection states every adjacent pair of which is related by
one operation. -/
def IsTrace : List s2n_connection → Prop
  | a :: b :: rest => Step a b ∧ IsTrace (b :: rest)
  | _ => True

/-- How many adjacent pairs of a trace disagree on a boolean observation. -/
def flagChanges (g : s2n_connection → Bool) : List s2n_connection → Nat
  | a :: b :: rest => (if g a = g b then 0 else 1) + flagChanges g (b :: rest)
  | _ => 0

/-- Whether the selector pointers have been repointed to `secure`. -/
def secureSelected (c : s2n_connection) : Bool := decide (c.client = PSel.secure)

/-- Decidable equality for `Except` results, so the model can be evaluated
on concrete inputs. -/
instance instDecEqExcept {ε α : Type} [DecidableEq ε] [DecidableEq α] :
    DecidableEq (Except ε α)
  | .error e, .error e' =>
    if h : e = e' then .isTrue (by rw [h]) else .isFalse (fun hh => h (Except.error.inj hh))
  | .error _, .ok _ => .isFalse (fun hh => Except.noConfusion hh)
  | .ok _, .error _ => .isFalse (fun hh => Except.noConfusion hh)
  | .ok a, .ok a' =>
    if h : a = a' then .isTrue (by rw [h]) else .isFalse (fun hh => h (Except.ok.inj hh))

/-- A connection with its `max_outgoing_fragment_length` field replaced. -/
def setMaxFrag (c : s2n_connection) (v : Nat) : s2n_connection :=
  { c with max_outgoing_fragment_length := v }

/-- Transport a receive-path result along a transformation of the
connection component. -/
def mapRecvResult (g : s2n_connection → s2n_connection) :
    Except s2n_connection (s2n_connection × List Nat) →
      Except s2n_connection (s2n_connection × List Nat)
  | .error c => .error (g c)
  | .ok (c, pt) => .ok (g c, pt)

/-- A freshly created client connection used to evaluate the model. -/
def demoClient : s2n_connection := s2n_connection_new s2n_mode.S2N_CLIENT 4 7 1

/-- A freshly created server connection used to evaluate the model; its
inbound pipeline mirrors `demoClient`'s outbound pipeline (both start on the
`initial` parameter set with sequence number zero). -/
def demoServer : s2n_connection := s2n_connection_new s2n_mode.S2N_SERVER 4 9 2

/-- Result of sending three bytes on `demoClient`. -/
def demoSendResult : s2n_connection × List Record × Nat :=
  match s2n_send demoClient [1, 2, 3] with
  | .ok p => p
  | .error e => (e, [], 0)

/-- Result of framing one fragment on `demoClient`. -/
def demoFragResult : s2n_connection × Record :=
  match sendFragment demoClient [5] with
  | .ok p => p
  | .error e => (e, { content_type := 0, version := 0, payload := [], tag := 0 })

/-- A record encrypted for `demoClient`'s inbound pipeline. -/
def demoInRecord : Record := encryptFragment 0 0 TLS_APPLICATION_DATA 0 [5]

/-- Result of receiving `demoInRecord` on `demoClient`. -/
def demoRecvResult : s2n_connection × List Nat :=
  match s2n_recv_record demoClient demoInRecord with
  | .ok p => p
  | .error e => (e, [])

/-- A connection whose sequence numbers are at the 64-bit overflow edge. -/
def demoOverflow : s2n_connection :=
  { demoClient with
    initial := { key := 0, tag_len := 0, client_sequence_number := seqLimit - 1,
                 server_sequence_number := seqLimit - 1 } }

/-- A client connection configured with 16 KB outgoing fragments. -/
def demo16k : s2n_connection := s2n_connection_new s2n_mode.S2N_CLIENT 16384 7 16

/-! Frame lemmas: which fields each primitive operation leaves unchanged. -/

@[simp] lemma updateActive_mode (c : s2n_connection) (s : PSel) (f) :
    (updateActive c s f).mode = c.mode := by cases s <;> rfl

@[simp] lemma updateActive_client (c : s2n_connection) (s : PSel) (f) :
    (updateActive c s f).client = c.client := by cases s <;> rfl

@[simp] lemma updateActive_server (c : s2n_connection) (s : PSel) (f) :
    (updateActive c s f).server = c.server := by cases s <;> rfl

@[simp] lemma updateActive_handshake_complete (c : s2n_connection) (s : PSel) (f) :
    (updateActive c s f).handshake_complete = c.handshake_complete := by cases s <;> rfl

@[simp] lemma updateActive_version (c : s2n_connection) (s : PSel) (f) :
    (updateActive c s f).actual_protocol_version = c.actual_protocol_version := by
  cases s <;> rfl

@[simp] lemma updateActive_established (c : s2n_connection) (s : PSel) (f) :
    (updateActive c s f).actual_protocol_version_established
      = c.actual_protocol_version_established := by cases s <;> rfl

@[simp] lemma updateActive_closing (c : s2n_connection) (s : PSel) (f) :
    (updateActive c s f).closing = c.closing := by cases s <;> rfl

@[simp] lemma updateActive_closed (c : s2n_connection) (s : PSel) (f) :
    (updateActive c s f).closed = c.closed := by cases s <;> rfl

@[simp] lemma updateActive_wire_bytes_in (c : s2n_connection) (s : PSel) (f) :
    (updateActive c s f).wire_bytes_in = c.wire_bytes_in := by cases s <;> rfl

@[simp] lemma updateActive_wire_bytes_out (c : s2n_connection) (s : PSel) (f) :
    (updateActive c s f).wire_bytes_out = c.wire_bytes_out := by cases s <;> rfl

@[simp] lemma updateActive_max (c : s2n_connection) (s : PSel) (f) :
    (updateActive c s f).max_outgoing_fragment_length = c.max_outgoing_fragment_length := by
  cases s <;> rfl

@[simp] lemma updateActive_close_notify_queued (c : s2n_connection) (s : PSel) (f) :
    (updateActive c s f).close_notify_queued = c.close_notify_queued := by cases s <;> rfl

@[simp] lemma updateActive_alert_in (c : s2n_connection) (s : PSel) (f) :
    (updateActive c s f).alert_in = c.alert_in := by cases s <;> rfl

@[simp] lemma updateActive_reader_alert_out (c : s2n_connection) (s : PSel) (f) :
    (updateActive c s f).reader_alert_out = c.reader_alert_out := by cases s <;> rfl

@[simp] lemma updateActive_writer_alert_out (c : s2n_connection) (s : PSel) (f) :
    (updateActive c s f).writer_alert_out = c.writer_alert_out := by cases s <;> rfl

@[simp] lemma updateActive_in_status (c : s2n_connection) (s : PSel) (f) :
    (updateActive c s f).in_status = c.in_status := by cases s <;> rfl

@[simp] lemma activeSet_updateActive_same (c : s2n_connection) (s : PSel) (f) :
    activeSet (updateActive c s f) s = f (activeSet c s) := by cases s <;> rfl

lemma activeSet_updateActive_other (c : s2n_connection) {s s' : PSel} (f) (h : s' ≠ s) :
    activeSet (updateActive c s f) s' = activeSet c s' := by
  cases s <;> cases s' <;> first | rfl | exact absurd rfl h

@[simp] lemma getSeq_incSeq_same (p : s2n_crypto_parameters) (d : Dir) :
    getSeq (incSeq p d) d = getSeq p d + 1 := by cases d <;> rfl

lemma getSeq_incSeq_other (p : s2n_crypto_parameters) {d d' : Dir} (h : d' ≠ d) :
    getSeq (incSeq p d) d' = getSeq p d' := by
  cases d <;> cases d' <;> first | rfl | exact absurd rfl h

@[simp] lemma incSeq_key (p : s2n_crypto_parameters) (d : Dir) :
    (incSeq p d).key = p.key := by cases d <;> rfl

@[simp] lemma incSeq_tag_len (p : s2n_crypto_parameters) (d : Dir) :
    (incSeq p d).tag_len = p.tag_len := by cases d <;> rfl

/-! Cipher model round-trip and replay rejection. -/

lemma decByte_encByte (key seq b : Nat) (hb : b < 256) :
    decByte key seq (encByte key seq b) = b := by
  unfold encByte decByte
  have hm : (key + seq) % 256 < 256 := Nat.mod_lt _ (by norm_num)
  have h1 : b + key + seq = b + (key + seq) := by omega
  rw [h1, Nat.add_mod b (key + seq) 256, Nat.mod_eq_of_lt hb, Nat.mod_add_mod]
  have h2 : b + (key + seq) % 256 + (256 - (key + seq) % 256) = b + 256 := by omega
  rw [h2, Nat.add_mod_right, Nat.mod_eq_of_lt hb]

lemma map_decByte_encByte (key seq : Nat) (l : List Nat) (h : ∀ b ∈ l, b < 256) :
    (l.map (encByte key seq)).map (decByte key seq) = l := by
  induction l with
  | nil => rfl
  | cons a t ih =>
    simp only [List.map_cons, List.cons.injEq]
    exact ⟨decByte_encByte key seq a (h a (List.mem_cons_self a t)),
      ih (fun b hb => h b (List.mem_cons_of_mem a hb))⟩

lemma decryptRecord_encryptFragment (key seq ctype ver : Nat) (frag : List Nat)
    (h : ∀ b ∈ frag, b < 256) :
    decryptRecord key seq (encryptFragment key seq ctype ver frag) = some frag := by
  unfold decryptRecord encryptFragment
  simp [map_decByte_encByte key seq frag h]

lemma decryptRecord_wrong_seq (key seq seq' ctype ver : Nat) (frag : List Nat)
    (h : seq' ≠ seq) :
    decryptRecord key seq' (encryptFragment key seq ctype ver frag) = none := by
  unfold decryptRecord encryptFragment authTag
  simp only []
  rw [if_neg]
  intro heq
  exact h ((Nat.pair_eq_pair.mp heq).1).symm

/-! Effect of sending one fragment on the tracked crypto state. -/

lemma outSeq_sendFragmentResult (c : s2n_connection) (f : List Nat) :
    outSeq (sendFragmentResult c f) = outSeq c + 1 := by
  cases hm : c.mode <;> cases hc : c.client <;> cases hs : c.server <;>
    simp [outSeq, outParams, activeSet, selFor, outDir, outDirOfMode, sendFragmentResult,
      updateActive, getSeq, incSeq, hm, hc, hs]

lemma inSeq_sendFragmentResult (c : s2n_connection) (f : List Nat) :
    inSeq (sendFragmentResult c f) = inSeq c := by
  cases hm : c.mode <;> cases hc : c.client <;> cases hs : c.server <;>
    simp [inSeq, inParams, activeSet, selFor, inDir, inDirOfMode, outDir, outDirOfMode,
      sendFragmentResult, updateActive, getSeq, incSeq, hm, hc, hs]

lemma outKey_sendFragmentResult (c : s2n_connection) (f : List Nat) :
    outKey (sendFragmentResult c f) = outKey c := by
  cases hm : c.mode <;> cases hc : c.client <;> cases hs : c.server <;>
    simp [outKey, outParams, activeSet, selFor, outDir, outDirOfMode, sendFragmentResult,
      updateActive, getSeq, incSeq, hm, hc, hs]

lemma outTagLen_sendFragmentResult (c : s2n_connection) (f : List Nat) :
    outTagLen (sendFragmentResult c f) = outTagLen c := by
  cases hm : c.mode <;> cases hc : c.client <;> cases hs : c.server <;>
    simp [outTagLen, outParams, activeSet, selFor, outDir, outDirOfMode, sendFragmentResult,
      updateActive, getSeq, incSeq, hm, hc, hs]

@[simp] lemma sendFragmentResult_mode (c : s2n_connection) (f : List Nat) :
    (sendFragmentResult c f).mode = c.mode := by simp [sendFragmentResult]

@[simp] lemma sendFragmentResult_client (c : s2n_connection) (f : List Nat) :
    (sendFragmentResult c f).client = c.client := by simp [sendFragmentResult]

@[simp] lemma sendFragmentResult_server (c : s2n_connection) (f : List Nat) :
    (sendFragmentResult c f).server = c.server := by simp [sendFragmentResult]

@[simp] lemma sendFragmentResult_handshake_complete (c : s2n_connection) (f : List Nat) :
    (sendFragmentResult c f).handshake_complete = c.handshake_complete := by
  simp [sendFragmentResult]

@[simp] lemma sendFragmentResult_version (c : s2n_connection) (f : List Nat) :
    (sendFragmentResult c f).actual_protocol_version = c.actual_protocol_version := by
  simp [sendFragmentResult]

@[simp] lemma sendFragmentResult_established (c : s2n_connection) (f : List Nat) :
    (sendFragmentResult c f).actual_protocol_version_established
      = c.actual_protocol_version_established := by simp [sendFragmentResult]

@[simp] lemma sendFragmentResult_closing (c : s2n_connection) (f : List Nat) :
    (sendFragmentResult c f).closing = c.closing := by simp [sendFragmentResult]

@[simp] lemma sendFragmentResult_closed (c : s2n_connection) (f : List Nat) :
    (sendFragmentResult c f).closed = c.closed := by simp [sendFragmentResult]

@[simp] lemma sendFragmentResult_wire_bytes_in (c : s2n_connection) (f : List Nat) :
    (sendFragmentResult c f).wire_bytes_in = c.wire_bytes_in := by simp [sendFragmentResult]

@[simp] lemma sendFragmentResult_wire_bytes_out (c : s2n_connection) (f : List Nat) :
    (sendFragmentResult c f).wire_bytes_out
      = c.wire_bytes_out + recordWireLen (outTagLen c) (mkOutRecord c f) := by
  simp [sendFragmentResult]

@[simp] lemma sendFragmentResult_max (c : s2n_connection) (f : List Nat) :
    (sendFragmentResult c f).max_outgoing_fragment_length
      = c.max_outgoing_fragment_length := by simp [sendFragmentResult]

/-! Effect of receiving one record on the tracked crypto state. -/

lemma inSeq_recvRecordResult (c : s2n_connection) (r : Record) :
    inSeq (recvRecordResult c r) = inSeq c + 1 := by
  cases hm : c.mode <;> cases hc : c.client <;> cases hs : c.server <;>
    simp [inSeq, inParams, activeSet, selFor, inDir, inDirOfMode, recvRecordResult,
      updateActive, getSeq, incSeq, hm, hc, hs]

lemma outSeq_recvRecordResult (c : s2n_connection) (r : Record) :
    outSeq (recvRecordResult c r) = outSeq c := by
  cases hm : c.mode <;> cases hc : c.client <;> cases hs : c.server <;>
    simp [outSeq, outParams, activeSet, selFor, outDir, outDirOfMode, inDir, inDirOfMode,
      recvRecordResult, updateActive, getSeq, incSeq, hm, hc, hs]

lemma inKey_recvRecordResult (c : s2n_connection) (r : Record) :
    inKey (recvRecordResult c r) = inKey c := by
  cases hm : c.mode <;> cases hc : c.client <;> cases hs : c.server <;>
    simp [inKey, inParams, activeSet, selFor, inDir, inDirOfMode, recvRecordResult,
      updateActive, getSeq, incSeq, hm, hc, hs]

@[simp] lemma recvRecordResult_mode (c : s2n_connection) (r : Record) :
    (recvRecordResult c r).mode = c.mode := by simp [recvRecordResult]

@[simp] lemma recvRecordResult_client (c : s2n_connection) (r : Record) :
    (recvRecordResult c r).client = c.client := by simp [recvRecordResult]

@[simp] lemma recvRecordResult_server (c : s2n_connection) (r : Record) :
    (recvRecordResult c r).server = c.server := by simp [recvRecordResult]

@[simp] lemma recvRecordResult_handshake_complete (c : s2n_connection) (r : Record) :
    (recvRecordResult c r).handshake_complete = c.handshake_complete := by
  simp [recvRecordResult]

@[simp] lemma recvRecordResult_version (c : s2n_connection) (r : Record) :
    (recvRecordResult c r).actual_protocol_version = c.actual_protocol_version := by
  simp [recvRecordResult]

@[simp] lemma recvRecordResult_established (c : s2n_connection) (r : Record) :
    (recvRecordResult c r).actual_protocol_version_established
      = c.actual_protocol_version_established := by simp [recvRecordResult]

@[simp] lemma recvRecordResult_closing (c : s2n_connection) (r : Record) :
    (recvRecordResult c r).closing = c.closing := by simp [recvRecordResult]

@[simp] lemma recvRecordResult_closed (c : s2n_connection) (r : Record) :
    (recvRecordResult c r).closed = c.closed := by simp [recvRecordResult]

@[simp] lemma recvRecordResult_wire_bytes_out (c : s2n_connection) (r : Record) :
    (recvRecordResult c r).wire_bytes_out = c.wire_bytes_out := by simp [recvRecordResult]

@[simp] lemma recvRecordResult_max (c : s2n_connection) (r : Record) :
    (recvRecordResult c r).max_outgoing_fragment_length
      = c.max_outgoing_fragment_length := by simp [recvRecordResult]

/-! Inversion lemmas for the fallible record operations. -/

lemma sendFragment_ok_inv {c : s2n_connection} {f : List Nat} {c' : s2n_connection}
    {r : Record} (h : sendFragment c f = .ok (c', r)) :
    c' = sendFragmentResult c f ∧ r = mkOutRecord c f ∧ outSeq c + 1 < seqLimit := by
  unfold sendFragment at h
  split at h
  · exact Except.noConfusion h
  · rename_i hg
    simp only [Except.ok.injEq, Prod.mk.injEq] at h
    exact ⟨h.1.symm, h.2.symm, by omega⟩

lemma sendFragment_err_inv {c : s2n_connection} {f : List Nat} {c' : s2n_connection}
    (h : sendFragment c f = .error c') :
    c' = { c with closing := true } ∧ seqLimit ≤ outSeq c + 1 := by
  unfold sendFragment at h
  split at h
  · rename_i hg
    simp only [Except.error.injEq] at h
    exact ⟨h.symm, hg⟩
  · exact Except.noConfusion h

lemma s2n_recv_record_ok_inv {c : s2n_connection} {r : Record} {c' : s2n_connection}
    {pt : List Nat} (h : s2n_recv_record c r = .ok (c', pt)) :
    c' = recvRecordResult c r ∧ decryptRecord (inKey c) (inSeq c) r = some pt ∧
      c.closed = false ∧ inSeq c + 1 < seqLimit := by
  unfold s2n_recv_record at h
  split at h
  · exact Except.noConfusion h
  · rename_i hcl
    split at h
    · exact Except.noConfusion h
    · rename_i hsl
      cases hd : decryptRecord (inKey c) (inSeq c) r with
      | none => rw [hd] at h; exact Except.noConfusion h
      | some pt0 =>
        rw [hd] at h
        simp only [Except.ok.injEq, Prod.mk.injEq] at h
        refine ⟨h.1.symm, ?_, by simpa using hcl, by omega⟩
        rw [h.2]

lemma s2n_recv_record_err_inv {c : s2n_connection} {r : Record} {c' : s2n_connection}
    (h : s2n_recv_record c r = .error c') :
    c' = c ∨ c' = { c with closing := true } := by
  unfold s2n_recv_record at h
  split at h
  · simp only [Except.error.injEq] at h
    exact Or.inl h.symm
  · split at h
    · simp only [Except.error.injEq] at h
      exact Or.inr h.symm
    · cases hd : decryptRecord (inKey c) (inSeq c) r with
      | none =>
        rw [hd] at h
        simp only [Except.error.injEq] at h
        exact Or.inr h.symm
      | some pt0 => rw [hd] at h; exact Except.noConfusion h

/-! Fragmentation lemmas. -/

lemma fragGo_congr (m : Nat) (hm : 0 < m) :
    ∀ (fuel₁ fuel₂ : Nat) (data : List Nat),
      data.length ≤ fuel₁ → data.length ≤ fuel₂ →
      fragGo m fuel₁ data = fragGo m fuel₂ data := by
  intro fuel₁
  induction fuel₁ with
  | zero =>
    intro fuel₂ data h1 h2
    have hd : data = [] := List.length_eq_zero.mp (Nat.le_zero.mp h1)
    subst hd
    cases fuel₂ <;> rfl
  | succ n ih =>
    intro fuel₂ data h1 h2
    cases data with
    | nil => cases fuel₂ <;> rfl
    | cons b rest =>
      cases fuel₂ with
      | zero => simp at h2
      | succ n2 =>
        simp only [fragGo]
        congr 1
        apply ih
        · rw [List.length_drop]
          simp only [List.length_cons] at h1 ⊢
          omega
        · rw [List.length_drop]
          simp only [List.length_cons] at h2 ⊢
          omega

lemma fragmentData_eq (m : Nat) (hm : 0 < m) (data : List Nat) :
    fragmentData m data =
      if data = [] then [] else data.take m :: fragmentData m (data.drop m) := by
  have hm0 : ¬ m = 0 := by omega
  cases data with
  | nil => simp [fragmentData, fragGo, hm0]
  | cons b rest =>
    simp only [fragmentData, hm0, if_false, List.length_cons, fragGo,
      if_neg (List.cons_ne_nil b rest)]
    congr 1
    exact fragGo_congr m hm rest.length ((b :: rest).drop m).length ((b :: rest).drop m)
      (by rw [List.length_drop]; simp only [List.length_cons]; omega) (le_refl _)

lemma fragmentData_flatten (m : Nat) (hm : 0 < m) (data : List Nat) :
    (fragmentData m data).flatten = data := by
  rw [fragmentData_eq m hm]
  split
  · rename_i h; rw [h]; rfl
  · rename_i h
    rw [List.flatten_cons, fragmentData_flatten m hm (data.drop m), List.take_append_drop]
termination_by data.length
decreasing_by
  rw [List.length_drop]
  have := List.length_pos.mpr (by assumption : data ≠ [])
  omega

lemma fragmentData_length_le (m : Nat) (data : List Nat) :
    ∀ f ∈ fragmentData m data, f.length ≤ m := by
  rcases Nat.eq_zero_or_pos m with hm | hm
  · subst hm; intro f hf; simp [fragmentData] at hf
  · rw [fragmentData_eq m hm]
    split
    · intro f hf; simp at hf
    · rename_i h
      intro f hf
      rcases List.mem_cons.mp hf with rfl | hf'
      · rw [List.length_take]; omega
      · exact fragmentData_length_le m (data.drop m) f hf'
termination_by data.length
decreasing_by
  rw [List.length_drop]
  have := List.length_pos.mpr (by assumption : data ≠ [])
  omega

lemma fragmentData_subset (m : Nat) (data : List Nat) :
    ∀ f ∈ fragmentData m data, ∀ b ∈ f, b ∈ data := by
  rcases Nat.eq_zero_or_pos m with hm | hm
  · subst hm; intro f hf; simp [fragmentData] at hf
  · rw [fragmentData_eq m hm]
    split
    · intro f hf; simp at hf
    · rename_i h
      intro f hf b hb
      rcases List.mem_cons.mp hf with rfl | hf'
      · exact List.take_subset m data hb
      · exact List.drop_subset m data (fragmentData_subset m (data.drop m) f hf' b hb)
termination_by data.length
decreasing_by
  rw [List.length_drop]
  have := List.length_pos.mpr (by assumption : data ≠ [])
  omega

/-! Per-step effects on the selector pointers, lifecycle flags and version. -/

lemma step_selectors (a b : s2n_connection) (h : Step a b) :
    (b.client = a.client ∧ b.server = a.server
      ∧ b.handshake_complete = a.handshake_complete)
    ∨ (b.client = PSel.secure ∧ b.server = PSel.secure ∧ b.handshake_complete = true
        ∧ a.handshake_complete = false) := by
  cases h with
  | promote =>
    simp only [promoteCryptoParams]
    split_ifs with hc
    · exact Or.inl ⟨rfl, rfl, rfl⟩
    · exact Or.inr ⟨rfl, rfl, rfl, by simpa using hc⟩
  | establish =>
    simp only [establishVersion]
    split_ifs <;> exact Or.inl ⟨rfl, rfl, rfl⟩
  | kill => exact Or.inl ⟨rfl, rfl, rfl⟩
  | send_ok =>
    rename_i f r hs
    obtain ⟨rfl, -, -⟩ := sendFragment_ok_inv hs
    exact Or.inl (by simp)
  | send_err =>
    rename_i f hs
    obtain ⟨rfl, -⟩ := sendFragment_err_inv hs
    exact Or.inl ⟨rfl, rfl, rfl⟩
  | recv_ok =>
    rename_i r pt hs
    obtain ⟨rfl, -, -, -⟩ := s2n_recv_record_ok_inv hs
    exact Or.inl (by simp)
  | recv_err =>
    rename_i r hs
    rcases s2n_recv_record_err_inv hs with rfl | rfl
    · exact Or.inl ⟨rfl, rfl, rfl⟩
    · exact Or.inl ⟨rfl, rfl, rfl⟩
  | alert =>
    simp only [recvAlertBytes, s2n_process_alert]
    split_ifs <;> exact Or.inl ⟨rfl, rfl, rfl⟩
  | close_intent => exact Or.inl ⟨rfl, rfl, rfl⟩
  | queue_close =>
    simp only [queueWriterCloseNotify]
    split_ifs <;> exact Or.inl ⟨rfl, rfl, rfl⟩
  | shutdown_write =>
    simp only [s2n_shutdown_write, queueWriterCloseNotify]
    split_ifs <;> exact Or.inl ⟨rfl, rfl, rfl⟩

lemma step_flags (a b : s2n_connection) (h : Step a b) :
    (b.closing = a.closing ∨ b.closing = true)
      ∧ (b.closed = a.closed ∨ b.closed = true) := by
  cases h with
  | promote =>
    simp only [promoteCryptoParams]
    split_ifs <;> exact ⟨Or.inl rfl, Or.inl rfl⟩
  | establish =>
    simp only [establishVersion]
    split_ifs <;> exact ⟨Or.inl rfl, Or.inl rfl⟩
  | kill => exact ⟨Or.inl rfl, Or.inr rfl⟩
  | send_ok =>
    rename_i f r hs
    obtain ⟨rfl, -, -⟩ := sendFragment_ok_inv hs
    exact ⟨Or.inl (by simp), Or.inl (by simp)⟩
  | send_err =>
    rename_i f hs
    obtain ⟨rfl, -⟩ := sendFragment_err_inv hs
    exact ⟨Or.inr rfl, Or.inl rfl⟩
  | recv_ok =>
    rename_i r pt hs
    obtain ⟨rfl, -, -, -⟩ := s2n_recv_record_ok_inv hs
    exact ⟨Or.inl (by simp), Or.inl (by simp)⟩
  | recv_err =>
    rename_i r hs
    rcases s2n_recv_record_err_inv hs with rfl | rfl
    · exact ⟨Or.inl rfl, Or.inl rfl⟩
    · exact ⟨Or.inr rfl, Or.inl rfl⟩
  | alert =>
    simp only [recvAlertBytes, s2n_process_alert]
    split_ifs <;> first
      | exact ⟨Or.inr rfl, Or.inl rfl⟩
      | exact ⟨Or.inl rfl, Or.inl rfl⟩
  | close_intent => exact ⟨Or.inr rfl, Or.inl rfl⟩
  | queue_close =>
    simp only [queueWriterCloseNotify]
    split_ifs <;> exact ⟨Or.inl rfl, Or.inl rfl⟩
  | shutdown_write => exact ⟨Or.inr rfl, Or.inr rfl⟩

lemma step_version (a b : s2n_connection) (h : Step a b) :
    (b.actual_protocol_version = a.actual_protocol_version ∧
      b.actual_protocol_version_established = a.actual_protocol_version_established)
    ∨ (a.actual_protocol_version_established = false ∧
        b.actual_protocol_version_established = true) := by
  cases h with
  | promote =>
    simp only [promoteCryptoParams]
    split_ifs <;> exact Or.inl ⟨rfl, rfl⟩
  | establish =>
    simp only [establishVersion]
    split_ifs with hc
    · exact Or.inl ⟨rfl, rfl⟩
    · exact Or.inr ⟨by simpa using hc, rfl⟩
  | kill => exact Or.inl ⟨rfl, rfl⟩
  | send_ok =>
    rename_i f r hs
    obtain ⟨rfl, -, -⟩ := sendFragment_ok_inv hs
    exact Or.inl (by simp)
  | send_err =>
    rename_i f hs
    obtain ⟨rfl, -⟩ := sendFragment_err_inv hs
    exact Or.inl ⟨rfl, rfl⟩
  | recv_ok =>
    rename_i r pt hs
    obtain ⟨rfl, -, -, -⟩ := s2n_recv_record_ok_inv hs
    exact Or.inl (by simp)
  | recv_err =>
    rename_i r hs
    rcases s2n_recv_record_err_inv hs with rfl | rfl
    · exact Or.inl ⟨rfl, rfl⟩
    · exact Or.inl ⟨rfl, rfl⟩
  | alert =>
    simp only [recvAlertBytes, s2n_process_alert]
    split_ifs <;> exact Or.inl ⟨rfl, rfl⟩
  | close_intent => exact Or.inl ⟨rfl, rfl⟩
  | queue_close =>
    simp only [queueWriterCloseNotify]
    split_ifs <;> exact Or.inl ⟨rfl, rfl⟩
  | shutdown_write =>
    simp only [s2n_shutdown_write, queueWriterCloseNotify]
    split_ifs <;> exact Or.inl ⟨rfl, rfl⟩

lemma reachable_inv (c : s2n_connection) (h : Reachable c) :
    c.client = c.server ∧ (c.handshake_complete = true ↔ c.client = PSel.secure) := by
  obtain ⟨m, mf, sk, st, hr⟩ := h
  induction hr with
  | refl => exact ⟨rfl, by simp [s2n_connection_new]⟩
  | tail hr hstep ih =>
    obtain ⟨ih1, ih2⟩ := ih
    rcases step_selectors _ _ hstep with ⟨h1, h2, h3⟩ | ⟨h1, h2, h3, h4⟩
    · rw [h1, h2, h3]; exact ⟨ih1, ih2⟩
    · rw [h1, h2, h3]; exact ⟨rfl, by simp⟩

lemma flagChanges_zero_of_true (g : s2n_connection → Bool)
    (hmono : ∀ a b, Step a b → g a = true → g b = true) :
    ∀ (l : List s2n_connection) (a : s2n_connection),
      IsTrace (a :: l) → g a = true → flagChanges g (a :: l) = 0 := by
  intro l
  induction l with
  | nil => intro a _ _; rfl
  | cons b rest ih =>
    intro a hl ha
    have hb : g b = true := hmono a b hl.1 ha
    have hstep : flagChanges g (a :: b :: rest)
        = (if g a = g b then 0 else 1) + flagChanges g (b :: rest) := rfl
    rw [hstep, if_pos (by rw [ha, hb]), ih b hl.2 hb]

lemma flagChanges_le_one (g : s2n_connection → Bool)
    (hmono : ∀ a b, Step a b → g a = true → g b = true)
    (hchange : ∀ a b, Step a b → ¬ g a = g b → g b = true) :
    ∀ l, IsTrace l → flagChanges g l ≤ 1 := by
  intro l
  induction l with
  | nil =>
    intro _
    have h0 : flagChanges g [] = 0 := rfl
    omega
  | cons a tail ih =>
    intro hl
    cases tail with
    | nil =>
      have h0 : flagChanges g [a] = 0 := rfl
      omega
    | cons b rest =>
      have hstep : flagChanges g (a :: b :: rest)
          = (if g a = g b then 0 else 1) + flagChanges g (b :: rest) := rfl
      rw [hstep]
      by_cases hab : g a = g b
      · rw [if_pos hab]
        simpa using ih hl.2
      · rw [if_neg hab]
        rw [flagChanges_zero_of_true g hmono rest b hl.2 (hchange a b hl.1 hab)]

lemma secureSelected_mono (a b : s2n_connection) (h : Step a b) :
    secureSelected a = true → secureSelected b = true := by
  intro ha
  simp only [secureSelected, decide_eq_true_eq] at ha ⊢
  rcases step_selectors a b h with ⟨h1, -, -⟩ | ⟨h1, -, -, -⟩
  · rw [h1]; exact ha
  · exact h1

lemma secureSelected_change (a b : s2n_connection) (h : Step a b) :
    ¬ secureSelected a = secureSelected b → secureSelected b = true := by
  intro hne
  rcases step_selectors a b h with ⟨h1, -, -⟩ | ⟨h1, -, -, -⟩
  · exact absurd (by simp [secureSelected, h1]) hne
  · simp [secureSelected, h1]

lemma established_mono (a b : s2n_connection) (h : Step a b) :
    a.actual_protocol_version_established = true →
      b.actual_protocol_version_established = true := by
  intro ha
  rcases step_version a b h with ⟨-, h2⟩ | ⟨-, h2⟩
  · rw [h2]; exact ha
  · exact h2

lemma established_change (a b : s2n_connection) (h : Step a b) :
    ¬ a.actual_protocol_version_established = b.actual_protocol_version_established →
      b.actual_protocol_version_established = true := by
  intro hne
  rcases step_version a b h with ⟨-, h2⟩ | ⟨-, h2⟩
  · exact absurd h2.symm hne
  · exact h2

/-! Behaviour of the send loop and the send/receive round trip. -/

@[simp] lemma mkOutRecord_payload_length (c : s2n_connection) (f : List Nat) :
    (mkOutRecord c f).payload.length = f.length := by
  simp [mkOutRecord, encryptFragment]

lemma sendLoop_spec : ∀ (frags : List (List Nat)) (c : s2n_connection),
    outSeq c + frags.length < seqLimit →
    ∃ c', sendLoop c frags =
        .ok (c', encryptStream (outKey c) (outSeq c) c.actual_protocol_version frags,
          (frags.map List.length).sum) ∧
      c'.wire_bytes_out = c.wire_bytes_out
        + (frags.map (fun f => S2N_TLS_RECORD_HEADER_LENGTH + f.length + outTagLen c)).sum ∧
      outSeq c' = outSeq c + frags.length := by
  intro frags
  induction frags with
  | nil =>
    intro c h
    exact ⟨c, by simp [sendLoop, encryptStream], by simp, by simp⟩
  | cons f fs ih =>
    intro c h
    have hg : ¬ seqLimit ≤ outSeq c + 1 := by
      simp only [List.length_cons] at h
      omega
    obtain ⟨c', hloop, hwire, hseq⟩ := ih (sendFragmentResult c f) (by
      rw [outSeq_sendFragmentResult]
      simp only [List.length_cons] at h
      omega)
    refine ⟨c', ?_, ?_, ?_⟩
    · simp only [sendLoop, sendFragment, if_neg hg, hloop, outKey_sendFragmentResult,
        outSeq_sendFragmentResult, sendFragmentResult_version, encryptStream,
        mkOutRecord, List.map_cons, List.sum_cons]
    · rw [hwire, sendFragmentResult_wire_bytes_out]
      simp only [outTagLen_sendFragmentResult, recordWireLen, mkOutRecord_payload_length,
        List.map_cons, List.sum_cons]
      omega
    · rw [hseq, outSeq_sendFragmentResult]
      simp only [List.length_cons]
      omega

lemma recvLoop_roundtrip : ∀ (frags : List (List Nat)) (c m c' : s2n_connection)
    (recs : List Record) (n : Nat),
    sendLoop c frags = .ok (c', recs, n) →
    inDir m = outDir c → inKey m = outKey c → inSeq m = outSeq c → m.closed = false →
    (∀ f ∈ frags, ∀ b ∈ f, b < 256) →
    ∃ m', recvLoop m recs = .ok (m', frags.flatten) := by
  intro frags
  induction frags with
  | nil =>
    intro c m c' recs n hsend hdir hkey hseq hcl hvalid
    simp only [sendLoop, Except.ok.injEq, Prod.mk.injEq] at hsend
    obtain ⟨-, hrecs, -⟩ := hsend
    rw [← hrecs]
    exact ⟨m, rfl⟩
  | cons f fs ih =>
    intro c m c' recs n hsend hdir hkey hseq hcl hvalid
    cases hsf : sendFragment c f with
    | error ce =>
      simp only [sendLoop, hsf] at hsend
      exact Except.noConfusion hsend
    | ok p =>
      obtain ⟨c1, r⟩ := p
      cases hsl : sendLoop c1 fs with
      | error ce =>
        simp only [sendLoop, hsf, hsl] at hsend
        exact Except.noConfusion hsend
      | ok q =>
        obtain ⟨c2, rs, n2⟩ := q
        simp only [sendLoop, hsf, hsl, Except.ok.injEq, Prod.mk.injEq] at hsend
        obtain ⟨rfl, hrecs, -⟩ := hsend
        obtain ⟨rfl, rfl, hlt⟩ := sendFragment_ok_inv hsf
        rw [← hrecs]
        have hdec : decryptRecord (inKey m) (inSeq m) (mkOutRecord c f) = some f := by
          rw [hkey, hseq]
          simp only [mkOutRecord]
          exact decryptRecord_encryptFragment _ _ _ _ f
            (hvalid f (List.mem_cons_self f fs))
        have hrecv : s2n_recv_record m (mkOutRecord c f)
            = .ok (recvRecordResult m (mkOutRecord c f), f) := by
          unfold s2n_recv_record
          rw [if_neg (by simp [hcl]), if_neg (by rw [hseq]; omega), hdec]
        have hdir1 : inDir (recvRecordResult m (mkOutRecord c f))
            = outDir (sendFragmentResult c f) := by
          simp only [inDir, outDir, recvRecordResult_mode, sendFragmentResult_mode]
          exact hdir
        have hkey1 : inKey (recvRecordResult m (mkOutRecord c f))
            = outKey (sendFragmentResult c f) := by
          rw [inKey_recvRecordResult, outKey_sendFragmentResult]
          exact hkey
        have hseq1 : inSeq (recvRecordResult m (mkOutRecord c f))
            = outSeq (sendFragmentResult c f) := by
          rw [inSeq_recvRecordResult, outSeq_sendFragmentResult, hseq]
        have hcl1 : (recvRecordResult m (mkOutRecord c f)).closed = false := by
          rw [recvRecordResult_closed]
          exact hcl
        have hvalid1 : ∀ g ∈ fs, ∀ b ∈ g, b < 256 := by
          intro g hg b hb
          exact hvalid g (List.mem_cons_of_mem f hg) b hb
        obtain ⟨m', hm'⟩ := ih (sendFragmentResult c f)
          (recvRecordResult m (mkOutRecord c f)) c2 rs n2 hsl hdir1 hkey1 hseq1 hcl1 hvalid1
        refine ⟨m', ?_⟩
        simp only [recvLoop, hrecv, hm', List.flatten_cons]

lemma encryptStream_payload_lengths (key sn ver : Nat) (fs : List (List Nat)) :
    (encryptStream key sn ver fs).map (fun r => r.payload.length) = fs.map List.length := by
  induction fs generalizing sn with
  | nil => rfl
  | cons f fs ih => simp [encryptStream, encryptFragment, ih]

lemma encryptStream_wire_lens (t key sn ver : Nat) (fs : List (List Nat)) :
    (encryptStream key sn ver fs).map (recordWireLen t)
      = fs.map (fun f => S2N_TLS_RECORD_HEADER_LENGTH + f.length + t) := by
  induction fs generalizing sn with
  | nil => rfl
  | cons f fs ih => simp [encryptStream, recordWireLen, encryptFragment, ih]

lemma encryptStream_length (key sn ver : Nat) (fs : List (List Nat)) :
    (encryptStream key sn ver fs).length = fs.length := by
  induction fs generalizing sn with
  | nil => rfl
  | cons f fs ih => simp [encryptStream, ih]

lemma map_comp_length (g : Nat → Nat) (fs : List (List Nat)) :
    fs.map (fun f => g f.length) = (fs.map List.length).map g := by
  induction fs with
  | nil => rfl
  | cons f fs ih => simp [ih]

lemma fragmentData_40960 (data : List Nat) (h : data.length = 40960) :
    (fragmentData 16384 data).map List.length = [16384, 16384, 8192] := by
  have h16 : (0 : Nat) < 16384 := by norm_num
  have h1 : data ≠ [] := by
    intro he; rw [he] at h; simp at h
  have hd1 : (data.drop 16384).length = 24576 := by
    rw [List.length_drop, h]
  have h2 : data.drop 16384 ≠ [] := by
    intro he; rw [he] at hd1; simp at hd1
  have hd2 : ((data.drop 16384).drop 16384).length = 8192 := by
    rw [List.length_drop, hd1]
  have h3 : (data.drop 16384).drop 16384 ≠ [] := by
    intro he; rw [he] at hd2; simp at hd2
  have hd3 : (((data.drop 16384).drop 16384).drop 16384).length = 0 := by
    rw [List.length_drop, hd2]
  have h4 : ((data.drop 16384).drop 16384).drop 16384 = [] := List.length_eq_zero.mp hd3
  rw [fragmentData_eq _ h16, if_neg h1, fragmentData_eq _ h16, if_neg h2,
    fragmentData_eq _ h16, if_neg h3, fragmentData_eq _ h16, if_pos h4]
  simp only [List.map_cons, List.map_nil, List.length_take, hd1, hd2, h]
  norm_num

lemma recvRecordResult_setMaxFrag (c : s2n_connection) (r : Record) (v : Nat) :
    recvRecordResult (setMaxFrag c v) r = setMaxFrag (recvRecordResult c r) v := by
  cases hm : c.mode <;> cases hc : c.client <;> cases hs : c.server <;>
    simp [recvRecordResult, updateActive, setMaxFrag, inTagLen, inParams, activeSet,
      selFor, inDir, inDirOfMode, hm, hc, hs]

/-! Claim theorems. -/

/-- C1: in every reachable connection state the `client` and `server`
selector pointers agree (no observable state has them referencing different
sets), they reference `initial` exactly as long as the handshake state
machine has not reached its terminal state and `secure` exactly after it,
and along any trace of connection operations the repointing from `initial`
to `secure` happens at most once — hence, combined with the equivalence,
exactly once, at handshake completion.  The pointers can reference only the
two owned sets by construction of the `PSel` selector. -/
theorem crypto_selector_lifecycle (c : s2n_connection) (l : List s2n_connection)
    (hc : Reachable c) (hl : IsTrace l) :
    c.client = c.server
      ∧ (c.handshake_complete = false ↔ c.client = PSel.initial)
      ∧ (c.handshake_complete = true ↔ c.client = PSel.secure)
      ∧ flagChanges secureSelected l ≤ 1 := by
  obtain ⟨h1, h2⟩ := reachable_inv c hc
  have h3 : (c.handshake_complete = false) ↔ ¬ (c.handshake_complete = true) := by
    cases c.handshake_complete <;> simp
  have h4 : (c.client = PSel.initial) ↔ ¬ (c.client = PSel.secure) := by
    cases c.client <;> simp
  refine ⟨h1, ?_, h2,
    flagChanges_le_one secureSelected secureSelected_mono secureSelected_change l hl⟩
  rw [h3, h4]
  exact not_congr h2

/-- Witness for `crypto_selector_lifecycle` at a fresh connection and a
two-state trace that performs the promotion. -/
theorem crypto_selector_lifecycle_witness :
    demoClient.client = demoClient.server
      ∧ (demoClient.handshake_complete = false ↔ demoClient.client = PSel.initial)
      ∧ (demoClient.handshake_complete = true ↔ demoClient.client = PSel.secure)
      ∧ flagChanges secureSelected [demoClient, promoteCryptoParams demoClient] ≤ 1 :=
  crypto_selector_lifecycle demoClient [demoClient, promoteCryptoParams demoClient]
    ⟨s2n_mode.S2N_CLIENT, 4, 7, 1, Relation.ReflTransGen.refl⟩
    ⟨Step.promote demoClient, trivial⟩

/-- C4: the lifecycle flags `closing` and `closed` are monotonic: no
connection operation ever moves either flag from `true` back to `false`. -/
theorem closing_closed_monotonic (a b : s2n_connection) (h : Step a b) :
    a.closing ≤ b.closing ∧ a.closed ≤ b.closed := by
  obtain ⟨h1, h2⟩ := step_flags a b h
  constructor
  · rcases h1 with h1 | h1
    · rw [h1]
    · rw [h1]; exact Bool.le_true _
  · rcases h2 with h2 | h2
    · rw [h2]
    · rw [h2]; exact Bool.le_true _

/-- Witness for `closing_closed_monotonic` at a kill step on a fresh
connection. -/
theorem closing_closed_monotonic_witness :
    demoClient.closing ≤ (s2n_connection_kill demoClient).closing
      ∧ demoClient.closed ≤ (s2n_connection_kill demoClient).closed :=
  closing_closed_monotonic demoClient (s2n_connection_kill demoClient)
    (Step.kill demoClient)

/-- C5: `s2n_connection_kill` sets `closed` unconditionally; it is
idempotent, so killing an already-killed connection leaves the state
unchanged and still succeeds; and after a kill the send path accepts no
further bytes: it consumes zero bytes, produces no records and leaves the
connection state untouched. -/
theorem kill_unconditional_idempotent (c : s2n_connection) (data : List Nat) :
    (s2n_connection_kill c).closed = true
      ∧ s2n_connection_kill (s2n_connection_kill c) = s2n_connection_kill c
      ∧ s2n_send (s2n_connection_kill c) data = .ok (s2n_connection_kill c, [], 0) := by
  refine ⟨rfl, rfl, ?_⟩
  simp [s2n_send, s2n_connection_kill]

/-- C7: once `actual_protocol_version_established` is set, every further
operation keeps it set and leaves `actual_protocol_version` unchanged (in
particular it never decreases), and along any trace of operations the flag
changes value at most once — it transitions from unset to set at most
once. -/
theorem version_established_once (a b : s2n_connection) (l : List s2n_connection)
    (h : Step a b) (hest : a.actual_protocol_version_established = true)
    (hl : IsTrace l) :
    b.actual_protocol_version_established = true
      ∧ b.actual_protocol_version = a.actual_protocol_version
      ∧ flagChanges (fun x => x.actual_protocol_version_established) l ≤ 1 := by
  refine ⟨established_mono a b h hest, ?_,
    flagChanges_le_one _ established_mono established_change l hl⟩
  rcases step_version a b h with ⟨h1, -⟩ | ⟨h1, -⟩
  · exact h1
  · simp [hest] at h1

/-- Witness for `version_established_once`: a connection whose version has
been established, followed by a kill step. -/
theorem version_established_once_witness :
    (s2n_connection_kill (establishVersion demoClient 33)).actual_protocol_version_established
        = true
      ∧ (s2n_connection_kill (establishVersion demoClient 33)).actual_protocol_version
          = (establishVersion demoClient 33).actual_protocol_version
      ∧ flagChanges (fun x => x.actual_protocol_version_established)
          [establishVersion demoClient 33] ≤ 1 :=
  version_established_once (establishVersion demoClient 33)
    (s2n_connection_kill (establishVersion demoClient 33))
    [establishVersion demoClient 33]
    (Step.kill (establishVersion demoClient 33)) (by decide) True.intro

/-- C10: `max_outgoing_fragment_length` constrains only the send path: the
receive path behaves identically for every value of the field — it accepts
and rejects the same records, recovers the same plaintext, and changes the
rest of the connection state in the same way; only the (untouched) field
itself differs. -/
theorem recv_independent_of_max_frag (c : s2n_connection) (r : Record) (v : Nat) :
    s2n_recv_record (setMaxFrag c v) r
      = mapRecvResult (fun x => setMaxFrag x v) (s2n_recv_record c r) := by
  have e1 : (setMaxFrag c v).closed = c.closed := rfl
  have e2 : inSeq (setMaxFrag c v) = inSeq c := rfl
  have e3 : inKey (setMaxFrag c v) = inKey c := rfl
  unfold s2n_recv_record
  simp only [e1, e2, e3]
  by_cases h1 : c.closed = true
  · rw [if_pos h1, if_pos h1]
    rfl
  · rw [if_neg h1, if_neg h1]
    by_cases h2 : seqLimit ≤ inSeq c + 1
    · rw [if_pos h2, if_pos h2]
      rfl
    · rw [if_neg h2, if_neg h2]
      cases hd : decryptRecord (inKey c) (inSeq c) r with
      | none => rfl
      | some pt =>
        show Except.ok (recvRecordResult (setMaxFrag c v) r, pt) = _
        rw [recvRecordResult_setMaxFrag]
        rfl

/-- C8: a close_notify alert received from the peer sets `closing` without
any outbound alert being queued or sent first (the writer and reader alert
queues and `wire_bytes_out` are untouched), and the local graceful-close
path queues exactly one close_notify alert even when invoked twice:
`close_notify_queued` makes a second invocation a no-op. -/
theorem close_notify_once (c cq : s2n_connection)
    (hbuf : c.alert_in = [])
    (hq : cq.close_notify_queued = false) :
    (recvAlertBytes c closeNotifyAlert).closing = true
      ∧ (recvAlertBytes c closeNotifyAlert).writer_alert_out = c.writer_alert_out
      ∧ (recvAlertBytes c closeNotifyAlert).reader_alert_out = c.reader_alert_out
      ∧ (recvAlertBytes c closeNotifyAlert).wire_bytes_out = c.wire_bytes_out
      ∧ (queueWriterCloseNotify cq).writer_alert_out = closeNotifyAlert
      ∧ (queueWriterCloseNotify cq).close_notify_queued = true
      ∧ queueWriterCloseNotify (queueWriterCloseNotify cq) = queueWriterCloseNotify cq := by
  have hr : recvAlertBytes c closeNotifyAlert
      = { c with closing := true, alert_in := [] } := by
    simp [recvAlertBytes, hbuf, closeNotifyAlert, S2N_ALERT_LENGTH, s2n_process_alert,
      ALERT_CLOSE_NOTIFY, ALERT_LEVEL_WARNING]
  have hqr : queueWriterCloseNotify cq
      = { cq with writer_alert_out := closeNotifyAlert, close_notify_queued := true } := by
    simp [queueWriterCloseNotify, hq]
  refine ⟨by rw [hr], by rw [hr], by rw [hr], by rw [hr], by rw [hqr], by rw [hqr], ?_⟩
  rw [hqr]
  simp [queueWriterCloseNotify]

/-- Witness for `close_notify_once` at a fresh connection. -/
theorem close_notify_once_witness :
    (recvAlertBytes demoClient closeNotifyAlert).closing = true
      ∧ (recvAlertBytes demoClient closeNotifyAlert).writer_alert_out
          = demoClient.writer_alert_out
      ∧ (recvAlertBytes demoClient closeNotifyAlert).reader_alert_out
          = demoClient.reader_alert_out
      ∧ (recvAlertBytes demoClient closeNotifyAlert).wire_bytes_out
          = demoClient.wire_bytes_out
      ∧ (queueWriterCloseNotify demoClient).writer_alert_out = closeNotifyAlert
      ∧ (queueWriterCloseNotify demoClient).close_notify_queued = true
      ∧ queueWriterCloseNotify (queueWriterCloseNotify demoClient)
          = queueWriterCloseNotify demoClient :=
  close_notify_once demoClient demoClient (by decide) (by decide)

/-- C3: for each traffic direction the sequence number of the active crypto
parameter set increases by exactly one per record successfully processed in
that direction (and the opposite direction's counter is untouched); no
non-record operation changes either owned parameter set; decrypting a record
under a stale or reused sequence number is an authentication failure (the
expected sequence number is supplied from local state, never read from the
record); and a sequence number at the 64-bit overflow edge makes both record
paths fail fatally, moving the connection toward `closing`. -/
theorem sequence_number_discipline (c crecv cov covr : s2n_connection)
    (f frag bs : List Nat) (c1 c2 : s2n_connection) (rec rec2 rec3 : Record)
    (pt : List Nat) (key sn sn' ctype ver v : Nat)
    (hsend : sendFragment c f = .ok (c1, rec))
    (hrecv : s2n_recv_record crecv rec2 = .ok (c2, pt))
    (hne : sn' ≠ sn)
    (hov : seqLimit ≤ outSeq cov + 1)
    (hovr : seqLimit ≤ inSeq covr + 1)
    (hcovr : covr.closed = false) :
    outSeq c1 = outSeq c + 1
      ∧ inSeq c1 = inSeq c
      ∧ inSeq c2 = inSeq crecv + 1
      ∧ outSeq c2 = outSeq crecv
      ∧ (s2n_connection_kill c).initial = c.initial
      ∧ (s2n_connection_kill c).secure = c.secure
      ∧ (promoteCryptoParams c).initial = c.initial
      ∧ (promoteCryptoParams c).secure = c.secure
      ∧ (establishVersion c v).initial = c.initial
      ∧ (establishVersion c v).secure = c.secure
      ∧ (recvAlertBytes c bs).initial = c.initial
      ∧ (recvAlertBytes c bs).secure = c.secure
      ∧ (queueWriterCloseNotify c).initial = c.initial
      ∧ (queueWriterCloseNotify c).secure = c.secure
      ∧ (s2n_shutdown_write c).initial = c.initial
      ∧ (s2n_shutdown_write c).secure = c.secure
      ∧ decryptRecord key sn' (encryptFragment key sn ctype ver frag) = none
      ∧ sendFragment cov f = .error { cov with closing := true }
      ∧ s2n_recv_record covr rec3 = .error { covr with closing := true } := by
  obtain ⟨rfl, -, -⟩ := sendFragment_ok_inv hsend
  obtain ⟨rfl, -, -, -⟩ := s2n_recv_record_ok_inv hrecv
  refine ⟨outSeq_sendFragmentResult c f, inSeq_sendFragmentResult c f,
    inSeq_recvRecordResult crecv rec2, outSeq_recvRecordResult crecv rec2,
    rfl, rfl, ?_, ?_, ?_, ?_, ?_, ?_, ?_, ?_, ?_, ?_,
    decryptRecord_wrong_seq key sn sn' ctype ver frag hne, ?_, ?_⟩
  · simp only [promoteCryptoParams]; split_ifs <;> rfl
  · simp only [promoteCryptoParams]; split_ifs <;> rfl
  · simp only [establishVersion]; split_ifs <;> rfl
  · simp only [establishVersion]; split_ifs <;> rfl
  · simp only [recvAlertBytes, s2n_process_alert]; split_ifs <;> rfl
  · simp only [recvAlertBytes, s2n_process_alert]; split_ifs <;> rfl
  · simp only [queueWriterCloseNotify]; split_ifs <;> rfl
  · simp only [queueWriterCloseNotify]; split_ifs <;> rfl
  · simp only [s2n_shutdown_write, queueWriterCloseNotify]; split_ifs <;> rfl
  · simp only [s2n_shutdown_write, queueWriterCloseNotify]; split_ifs <;> rfl
  · unfold sendFragment; rw [if_pos hov]
  · unfold s2n_recv_record; rw [if_neg (by simp [hcovr]), if_pos hovr]

/-- Witness for `sequence_number_discipline` on concrete connections: a
successful send and receive on a fresh connection, a replay with sequence
number 1 of a record built at sequence number 0, and overflow-edge
connections. -/
theorem sequence_number_discipline_witness :
    outSeq demoFragResult.1 = outSeq demoClient + 1
      ∧ inSeq demoFragResult.1 = inSeq demoClient
      ∧ inSeq demoRecvResult.1 = inSeq demoClient + 1
      ∧ outSeq demoRecvResult.1 = outSeq demoClient
      ∧ (s2n_connection_kill demoClient).initial = demoClient.initial
      ∧ (s2n_connection_kill demoClient).secure = demoClient.secure
      ∧ (promoteCryptoParams demoClient).initial = demoClient.initial
      ∧ (promoteCryptoParams demoClient).secure = demoClient.secure
      ∧ (establishVersion demoClient 5).initial = demoClient.initial
      ∧ (establishVersion demoClient 5).secure = demoClient.secure
      ∧ (recvAlertBytes demoClient []).initial = demoClient.initial
      ∧ (recvAlertBytes demoClient []).secure = demoClient.secure
      ∧ (queueWriterCloseNotify demoClient).initial = demoClient.initial
      ∧ (queueWriterCloseNotify demoClient).secure = demoClient.secure
      ∧ (s2n_shutdown_write demoClient).initial = demoClient.initial
      ∧ (s2n_shutdown_write demoClient).secure = demoClient.secure
      ∧ decryptRecord 3 1 (encryptFragment 3 0 23 0 [9]) = none
      ∧ sendFragment demoOverflow [5] = .error { demoOverflow with closing := true }
      ∧ s2n_recv_record demoOverflow demoInRecord
          = .error { demoOverflow with closing := true } :=
  sequence_number_discipline demoClient demoClient demoOverflow demoOverflow
    [5] [9] [] demoFragResult.1 demoRecvResult.1 demoFragResult.2 demoInRecord
    demoInRecord demoRecvResult.2 3 0 1 23 0 5
    (by decide) (by decide) (by decide) (by decide) (by decide) (by decide)

/-- C2: round-trip law.  If the send path accepts a valid plaintext input
(every byte below 256) on an open connection and produces a list of records,
then a mirrored receiver — opposite traffic direction, same active key, and
a crypto parameter set tracking the same sequence number — decrypts those
records in order back to exactly the original input. -/
theorem send_recv_roundtrip (c m c' : s2n_connection) (data : List Nat)
    (recs : List Record) (n : Nat)
    (hclosed : c.closed = false)
    (hmf : 0 < c.max_outgoing_fragment_length)
    (hdir : inDir m = outDir c)
    (hkey : inKey m = outKey c)
    (hseqs : inSeq m = outSeq c)
    (hmcl : m.closed = false)
    (hvalid : ∀ b ∈ data, b < 256)
    (hsend : s2n_send c data = .ok (c', recs, n)) :
    ∃ m', recvLoop m recs = .ok (m', data) := by
  rw [s2n_send, if_neg (by simp [hclosed])] at hsend
  have hv2 : ∀ f ∈ fragmentData c.max_outgoing_fragment_length data, ∀ b ∈ f, b < 256 := by
    intro f hf b hb
    exact hvalid b (fragmentData_subset _ _ f hf b hb)
  obtain ⟨m', hm'⟩ := recvLoop_roundtrip _ c m c' recs n hsend hdir hkey hseqs hmcl hv2
  rw [fragmentData_flatten _ hmf data] at hm'
  exact ⟨m', hm'⟩

/-- Witness for `send_recv_roundtrip`: three bytes sent by `demoClient` are
recovered by `demoServer`. -/
theorem send_recv_roundtrip_witness :
    ∃ m', recvLoop demoServer demoSendResult.2.1 = .ok (m', [1, 2, 3]) :=
  send_recv_roundtrip demoClient demoServer demoSendResult.1 [1, 2, 3]
    demoSendResult.2.1 demoSendResult.2.2
    (by decide) (by decide) (by decide) (by decide) (by decide) (by decide)
    (by decide) (by decide)

/-- C6: sending a 40960-byte payload with `max_outgoing_fragment_length` of
16384 on an open connection (with room in the sequence counter) produces
exactly three records whose ciphertext payloads are 16384, 16384 and 8192
bytes, consumes all 40960 bytes, and grows `wire_bytes_out` by exactly the
sum of the records' header, ciphertext and authentication-tag lengths, which
is three 5-byte headers plus 40960 payload bytes plus three tags.  In
general no fragment produced by the record layer exceeds
`max_outgoing_fragment_length`. -/
theorem fragmentation_40k (c c2 : s2n_connection) (data data2 : List Nat)
    (hlen : data.length = 40960)
    (hmax : c.max_outgoing_fragment_length = 16384)
    (hclosed : c.closed = false)
    (hseqb : outSeq c + 3 < seqLimit) :
    (∃ c' recs,
      s2n_send c data = .ok (c', recs, 40960)
        ∧ recs.map (fun r => r.payload.length) = [16384, 16384, 8192]
        ∧ recs.length = 3
        ∧ c'.wire_bytes_out
            = c.wire_bytes_out + (recs.map (recordWireLen (outTagLen c))).sum
        ∧ c'.wire_bytes_out
            = c.wire_bytes_out + 3 * S2N_TLS_RECORD_HEADER_LENGTH + 40960
                + 3 * outTagLen c)
      ∧ ∀ f ∈ fragmentData c2.max_outgoing_fragment_length data2,
          f.length ≤ c2.max_outgoing_fragment_length := by
  refine ⟨?_, fragmentData_length_le _ _⟩
  have hmap : (fragmentData 16384 data).map List.length = [16384, 16384, 8192] :=
    fragmentData_40960 data hlen
  have hflen : (fragmentData 16384 data).length = 3 := by
    have := congrArg List.length hmap
    simpa using this
  obtain ⟨c', hloop, hwire, -⟩ := sendLoop_spec (fragmentData 16384 data) c
    (by rw [hflen]; exact hseqb)
  have hsum : ((fragmentData 16384 data).map List.length).sum = 40960 := by
    rw [hmap]; norm_num
  refine ⟨c',
    encryptStream (outKey c) (outSeq c) c.actual_protocol_version
      (fragmentData 16384 data), ?_, ?_, ?_, ?_, ?_⟩
  · rw [s2n_send, if_neg (by simp [hclosed]), hmax, hloop, hsum]
  · rw [encryptStream_payload_lengths]
    exact hmap
  · rw [encryptStream_length, hflen]
  · rw [encryptStream_wire_lens]
    exact hwire
  · rw [hwire]
    have hcomp : (fragmentData 16384 data).map
          (fun f => S2N_TLS_RECORD_HEADER_LENGTH + f.length + outTagLen c)
        = ((fragmentData 16384 data).map List.length).map
            (fun nn => S2N_TLS_RECORD_HEADER_LENGTH + nn + outTagLen c) :=
      map_comp_length (fun nn => S2N_TLS_RECORD_HEADER_LENGTH + nn + outTagLen c)
        (fragmentData 16384 data)
    rw [hcomp, hmap]
    simp [S2N_TLS_RECORD_HEADER_LENGTH]
    omega

/-- Witness for `fragmentation_40k`: a 40960-byte constant payload sent on a
fresh 16 KB-fragment connection. -/
theorem fragmentation_40k_witness :
    (∃ c' recs,
      s2n_send demo16k (List.replicate 40960 65) = .ok (c', recs, 40960)
        ∧ recs.map (fun r => r.payload.length) = [16384, 16384, 8192]
        ∧ recs.length = 3
        ∧ c'.wire_bytes_out
            = demo16k.wire_bytes_out
                + (recs.map (recordWireLen (outTagLen demo16k))).sum
        ∧ c'.wire_bytes_out
            = demo16k.wire_bytes_out + 3 * S2N_TLS_RECORD_HEADER_LENGTH + 40960
                + 3 * outTagLen demo16k)
      ∧ ∀ f ∈ fragmentData demoClient.max_outgoing_fragment_length [1, 2, 3, 4, 5],
          f.length ≤ demoClient.max_outgoing_fragment_length :=
  fragmentation_40k demo16k demoClient (List.replicate 40960 65) [1, 2, 3, 4, 5]
    (List.length_replicate 40960 65) (by decide) (by decide) (by decide)

end S2N
